import Mathlib

/-
Shallow embedding of the wikimedia-bg/git-sync repository (src/git-sync.py and
src/phab-sync.py), restricted to the reconciliation engine: the title <-> path
name mapper, the pending-revision computation (`_pending_revs`, `_last_changed`),
the wiki -> repository phase (`_wiki2git` / `_wiki2phab`) and the
repository -> wiki phase (`_git2wiki` / `_phab2wiki`).

Python strings are modelled as `String` / `List Char`; machine-level details
(git plumbing, the pywikibot transport) appear only through their observable
results, which the engine receives as explicit inputs (page lists, log events,
blob lookups) or emits as explicit traces (commits, wiki actions, log appends).
-/

namespace GitSyncSpec

/-! ### Python string primitives used by the engine -/

/-- Models Python `s.replace('/', '.d/')` (git-sync.py line 194, phab-sync.py
line 166): every `'/'` is replaced by the three characters `.d/`. -/
def replSlashDot : List Char → List Char
  | [] => []
  | c :: cs => if c = '/' then '.' :: 'd' :: '/' :: replSlashDot cs else c :: replSlashDot cs

/-- Models Python `s.replace('.d/', '/')` (git-sync.py lines 130/132/246,
phab-sync.py lines 117/216): non-overlapping occurrences of `.d/` are replaced
by `/`, scanning left to right exactly as `str.replace` does. -/
def replDotSlash : List Char → List Char
  | [] => []
  | [c] => [c]
  | [c, c'] => [c, c']
  | c :: c' :: c'' :: cs =>
    if c = '.' ∧ c' = 'd' ∧ c'' = '/' then '/' :: replDotSlash cs
    else c :: replDotSlash (c' :: c'' :: cs)

/-- Models Python `s.rstrip('\n')` on a character list: all trailing newline
characters are removed. -/
def rstripNLL (l : List Char) : List Char := (l.reverse.dropWhile (fun c => c = '\n')).reverse

/-- Models Python `s.rstrip('\n')` (git-sync.py lines 211/271, phab-sync.py
lines 179/246). -/
def rstripNLs (s : String) : String := (rstripNLL s.toList).asString

/-- Models Python `re.sub(r'\.' + ext + '$', '', s)` for a literal extension
`ext` (git-sync.py line 87/250, phab-sync.py line 89/220): the anchored pattern
can only match the final `.ext` suffix, which is removed when present. -/
def reSubExtEnd (ext l : List Char) : List Char :=
  let k := l.length - (ext.length + 1)
  if l.drop k = '.' :: ext then l.take k else l

/-- Models Python `message.replace('\n', ' ')` (git-sync.py line 95). -/
def replNlSpace (s : String) : String :=
  (s.toList.map (fun c => if c = '\n' then ' ' else c)).asString

/-- Models Python `message.replace('\n', '')` (phab-sync.py lines 253/275). -/
def delNl (s : String) : String := (s.toList.filter (fun c => ¬ c = '\n')).asString

/-- Models Python `user.replace(' ', '_')` (phab-sync.py lines 190/191). -/
def spaceToUnderscore (s : String) : String :=
  (s.toList.map (fun c => if c = ' ' then '_' else c)).asString

/-- The Python `\s` class over ASCII, as used by `re.sub(r'\s<>$', ...)`. -/
def isPyWs (c : Char) : Bool := c = ' ' ∨ c = '\t' ∨ c = '\n' ∨ c = '\r' ∨ c = '\x0b' ∨ c = '\x0c'

/-- Models Python `re.sub(r'\s<>$', '', name)` (git-sync.py line 252,
phab-sync.py line 222): a trailing whitespace character followed by `<>` is
removed when present at the end of the committer name. -/
def stripWsAngle (s : String) : String :=
  match s.toList.reverse with
  | '>' :: '<' :: c :: rest => if isPyWs c then rest.reverse.asString else s
  | _ => s

/-! ### The name mapper -/

/-- The reserved marker segment `.d/` that disambiguates a page from its
sub-pages in the flat file tree. -/
def marker : List Char := ['.', 'd', '/']

/-- Title -> file path, from `_wiki2git` (git-sync.py lines 194-198) and
`_wiki2phab` (phab-sync.py lines 166-170): replace each `/` by `.d/`; if a
forced extension is configured (a non-empty string, matching Python
truthiness) and the path has no `.d/` segment, append `.` plus the
extension. -/
def titleToPath (forceExt : String) (title : String) : String :=
  let fileName := (replSlashDot title.toList).asString
  if forceExt ≠ "" ∧ ¬ marker <:+: fileName.toList then fileName ++ "." ++ forceExt
  else fileName

/-- File path -> full page name, from `_git2wiki` (git-sync.py lines 246-250)
and `_phab2wiki` (phab-sync.py lines 216-220): prefix the namespace, replace
each `.d/` by `/`; if a forced extension is configured and the resulting page
name contains no `/`, strip the trailing `.ext`. -/
def pathToPageName (nsName forceExt : String) (fileName : String) : String :=
  let pageName := nsName ++ ":" ++ (replDotSlash fileName.toList).asString
  if forceExt ≠ "" ∧ ¬ '/' ∈ pageName.toList then (reSubExtEnd forceExt.toList pageName.toList).asString
  else pageName

/-! ### Round-trip lemmas for the name mapper -/

theorem toList_asString (l : List Char) : (List.asString l).toList = l := rfl

theorem asString_toList (s : String) : s.toList.asString = s := rfl

theorem replSlashDot_head_ne_slash (l : List Char) (t : List Char) :
    replSlashDot l ≠ '/' :: t := by
  cases l with
  | nil => simp [replSlashDot]
  | cons c cs =>
    by_cases hc : c = '/'
    · simp [replSlashDot, hc]
    · intro h
      rw [replSlashDot, if_neg hc] at h
      exact hc (List.cons.injEq .. ▸ h).1

theorem replSlashDot_head_ne_dslash (l : List Char) (t : List Char) :
    replSlashDot l ≠ 'd' :: '/' :: t := by
  cases l with
  | nil => simp [replSlashDot]
  | cons c cs =>
    by_cases hc : c = '/'
    · simp [replSlashDot, hc]
    · intro h
      rw [replSlashDot, if_neg hc] at h
      exact replSlashDot_head_ne_slash cs t (List.cons.injEq .. ▸ h).2

theorem replDotSlash_cons (c : Char) (X : List Char)
    (h : c = '.' → ∀ rest, X ≠ 'd' :: '/' :: rest) :
    replDotSlash (c :: X) = c :: replDotSlash X := by
  match X with
  | [] => simp [replDotSlash]
  | [x] => simp [replDotSlash]
  | x :: y :: rest =>
    have hcond : ¬ (c = '.' ∧ x = 'd' ∧ y = '/') := by
      rintro ⟨h1, h2, h3⟩
      exact h h1 rest (by rw [h2, h3])
    simp only [replDotSlash, if_neg hcond]

theorem replDotSlash_replSlashDot (l : List Char) :
    replDotSlash (replSlashDot l) = l := by
  induction l with
  | nil => simp [replSlashDot, replDotSlash]
  | cons c cs ih =>
    by_cases hc : c = '/'
    · subst hc
      simp [replSlashDot, replDotSlash, ih]
    · simp only [replSlashDot, if_neg hc]
      rw [replDotSlash_cons c (replSlashDot cs)
        (fun _ rest => replSlashDot_head_ne_dslash cs rest), ih]

theorem replSlashDot_no_slash (l : List Char) (h : '/' ∉ l) : replSlashDot l = l := by
  induction l with
  | nil => rfl
  | cons c cs ih =>
    have hc : c ≠ '/' := fun hcc => h (hcc ▸ List.mem_cons_self c cs)
    simp only [replSlashDot, if_neg hc]
    rw [ih (fun hm => h (List.mem_cons_of_mem c hm))]

theorem replDotSlash_no_slash (l : List Char) (h : '/' ∉ l) : replDotSlash l = l := by
  induction l with
  | nil => rfl
  | cons c cs ih =>
    rw [replDotSlash_cons c cs]
    · rw [ih (fun hm => h (List.mem_cons_of_mem c hm))]
    · intro _ rest hrest
      apply h
      rw [hrest]
      exact List.mem_cons_of_mem _ (List.mem_cons_of_mem _ (List.mem_cons_self _ _))

theorem marker_infix_replSlashDot (l : List Char) (h : '/' ∈ l) :
    marker <:+: replSlashDot l := by
  induction l with
  | nil => cases h
  | cons c cs ih =>
    by_cases hc : c = '/'
    · subst hc
      simp only [replSlashDot, if_pos rfl]
      exact ⟨[], replSlashDot cs, rfl⟩
    · have hmem : '/' ∈ cs := by
        rcases List.mem_cons.mp h with h1 | h1
        · exact absurd h1.symm hc
        · exact h1
      simp only [replSlashDot, if_neg hc]
      exact List.infix_cons (ih hmem)

theorem not_marker_infix_of_no_slash (l : List Char) (h : '/' ∉ l) :
    ¬ marker <:+: l := by
  intro hinf
  exact h (hinf.subset (by simp [marker]))

theorem reSubExtEnd_append (ext l : List Char) :
    reSubExtEnd ext (l ++ '.' :: ext) = l := by
  have hlen : (l ++ '.' :: ext).length - (ext.length + 1) = l.length := by
    simp [List.length_append]
  have hdrop : (l ++ '.' :: ext).drop l.length = '.' :: ext := List.drop_left l ('.' :: ext)
  simp only [reSubExtEnd, hlen, hdrop, if_pos rfl]
  exact List.take_left l ('.' :: ext)

theorem toList_append (a b : String) : (a ++ b).toList = a.toList ++ b.toList := rfl

/-- C3: for every page title `T` that does not literally contain the reserved
marker segment `.d/`, mapping the title to a file path (replacing each `/` with
`.d/`, appending the forced extension only when the path has no `.d/` segment)
and then mapping that path back through `_git2wiki`'s inverse yields exactly the
page `T` in the configured namespace (the code always carries the namespace
prefix `ns ++ ":"` on the wiki side). Holds for any namespace and forced
extension free of `/`. -/
theorem c3_title_path_roundtrip (nsName ext title : String)
    (hns : '/' ∉ nsName.toList) (hext : '/' ∉ ext.toList)
    (hmark : ¬ marker <:+: title.toList) :
    pathToPageName nsName ext (titleToPath ext title) = nsName ++ ":" ++ title := by
  by_cases hslash : '/' ∈ title.toList
  · -- the title has sub-pages: a marker appears, so no extension is involved
    have hinf : marker <:+: (replSlashDot title.toList) := marker_infix_replSlashDot _ hslash
    have h1 : titleToPath ext title = (replSlashDot title.toList).asString := by
      simp only [titleToPath, toList_asString]
      rw [if_neg]
      rintro ⟨-, hno⟩
      exact hno hinf
    rw [h1]
    have h2 : (nsName ++ ":" ++ (replDotSlash ((replSlashDot title.toList).asString).toList).asString)
        = nsName ++ ":" ++ title := by
      rw [toList_asString, replDotSlash_replSlashDot, asString_toList]
    simp only [pathToPageName, toList_asString]
    rw [replDotSlash_replSlashDot, asString_toList]
    rw [if_neg]
    rintro ⟨-, hno⟩
    exact hno (by
      show '/' ∈ (nsName ++ ":" ++ title).toList
      rw [toList_append]
      exact List.mem_append_right _ hslash)
  · -- a root-level title: the extension round-trips through the suffix strip
    have hfile : (replSlashDot title.toList).asString = title := by
      rw [replSlashDot_no_slash _ hslash, asString_toList]
    by_cases hne : ext = ""
    · subst hne
      have h1 : titleToPath "" title = title := by
        simp only [titleToPath, hfile]
        rw [if_neg]
        rintro ⟨hno, -⟩
        exact hno rfl
      rw [h1]
      simp only [pathToPageName]
      rw [replDotSlash_no_slash _ hslash, asString_toList, if_neg]
      rintro ⟨hno, -⟩
      exact hno rfl
    · have h1 : titleToPath ext title = title ++ "." ++ ext := by
        simp only [titleToPath, hfile, toList_asString]
        rw [if_pos ⟨hne, not_marker_infix_of_no_slash _ hslash⟩]
      rw [h1]
      have hlist : (title ++ "." ++ ext).toList = title.toList ++ '.' :: ext.toList := by
        rw [toList_append, toList_append]
        simp
      have hnoslash : '/' ∉ (title ++ "." ++ ext).toList := by
        rw [hlist]
        intro hmem
        rcases List.mem_append.mp hmem with h | h
        · exact hslash h
        · rcases List.mem_cons.mp h with h | h
          · exact absurd h (by decide)
          · exact hext h
      simp only [pathToPageName]
      rw [replDotSlash_no_slash _ hnoslash, asString_toList]
      have hnsl : '/' ∉ (nsName ++ ":" ++ (title ++ "." ++ ext)).toList := by
        rw [toList_append, toList_append]
        intro hmem
        rcases List.mem_append.mp hmem with h | h
        · rcases List.mem_append.mp h with h1 | h1
          · exact hns h1
          · exact absurd h1 (by decide)
        · exact hnoslash h
      rw [if_pos ⟨hne, hnsl⟩]
      have hsplit : (nsName ++ ":" ++ (title ++ "." ++ ext)).toList
          = (nsName ++ ":" ++ title).toList ++ '.' :: ext.toList := by
        simp only [toList_append, hlist]
        simp [List.append_assoc]
      rw [hsplit, reSubExtEnd_append, asString_toList]

/-- Witness for C3 at a concrete title, namespace and extension. -/
theorem c3_title_path_roundtrip_witness :
    ('/' ∉ "Модул".toList ∧ '/' ∉ "lua".toList ∧ ¬ marker <:+: "Str/doc".toList)
    ∧ pathToPageName "Модул" "lua" (titleToPath "lua" "Str/doc") = "Модул" ++ ":" ++ "Str/doc" :=
  ⟨by decide, c3_title_path_roundtrip "Модул" "lua" "Str/doc"
    (by decide) (by decide) (by decide)⟩

/-! ### Phase A data model: pending revisions (`_pending_revs`, `_last_changed`) -/

/-- A stored wiki revision of a page, as yielded by
`page.revisions(endtime=..., content=True)`. -/
structure WRev where
  user : String
  comment : String
  text : String
  timestamp : Nat
deriving DecidableEq

/-- A wiki page as seen through `self._pagelist()`: its title (without
namespace), full revision history, and the text of its latest revision
(`page.latest_revision['text']`). -/
structure WPage where
  title : String
  revs : List WRev
  latestText : String
deriving DecidableEq

/-- One tuple `(page_name, rev_dict, kind)` appended to `revs` in
`_pending_revs`; `kind` is the literal Python string (`'edit'`, `'resync'`,
`'delete'` or `'move'`).  Delete/move tuples carry no `'text'` key; the engine
never reads `text` for them, so it is `""` here. -/
structure PendingRev where
  title : String
  user : String
  comment : String
  text : String
  timestamp : Nat
  kind : String
deriving DecidableEq

/-- One entry of `site.logevents(page=...)`, newest first as the API yields
them. -/
structure LogEvent where
  etype : String
  user : String
  comment : String
  timestamp : Nat
deriving DecidableEq

/-- `GitRepo._last_changed` (git-sync.py lines 107-108): the committed date of
the `master` head plus a one-second skew. -/
def gitLastChanged (masterCommittedDate : Nat) : Nat := masterCommittedDate + 1

/-- `PhabRepo._last_changed` (phab-sync.py lines 97-98): the authored date of
the `master` head plus a one-second skew. -/
def phabLastChanged (masterAuthoredDate : Nat) : Nat := masterAuthoredDate + 1

/-- Models `page.revisions(endtime=since, content=True)`: the revisions not
older than the watermark (the MediaWiki `rvend` bound is inclusive). -/
def revisionsSince (since : Nat) (p : WPage) : List WRev :=
  p.revs.filter (fun r => since ≤ r.timestamp)

/-- The synthetic full-resync revision appended per page when a resync is
pending (git-sync.py lines 117-123, phab-sync.py lines 106-113). -/
def resyncRev (nowTs : Nat) (p : WPage) : PendingRev :=
  ⟨p.title, "syncbot", "forced resync from wiki", p.latestText, nowTs, "resync"⟩

/-- Stable insertion into a timestamp-sorted list; together with `sortRevs`
this models Python's stable `revs.sort(key=lambda rev: rev[1]['timestamp'])`. -/
def insertRev (r : PendingRev) : List PendingRev → List PendingRev
  | [] => [r]
  | x :: xs => if x.timestamp ≤ r.timestamp then x :: insertRev r xs else r :: x :: xs

/-- Models `revs.sort(key=lambda rev: rev[1]['timestamp'])` (git-sync.py
line 145, phab-sync.py line 128): a stable ascending sort by timestamp. -/
def sortRevs (l : List PendingRev) : List PendingRev := l.foldr insertRev []

/-- Maps a tracked repository file back to the page it represents
(git-sync.py lines 129-132): replace `.d/` by `/`, then strip the forced
extension when one is configured. -/
def filePage (forceExt : String) (f : String) : String :=
  if forceExt = "" then (replDotSlash f.toList).asString
  else (reSubExtEnd forceExt.toList (replDotSlash f.toList)).asString

/-- The delete/move scan of git-sync.py lines 136-144: walk the page's log
events (newest first) and keep only the first delete or move event, then
`break`. -/
def gitDeleteMoveRev (pn : String) (events : List LogEvent) : Option PendingRev :=
  match events.find? (fun e => e.etype = "delete" ∨ e.etype = "move") with
  | some e => some ⟨pn, e.user, e.comment, "", e.timestamp, e.etype⟩
  | none => none

/-- `GitRepo._pending_revs` (git-sync.py lines 110-146).  Python set values
(`set(repo_files) - set(self.ignores)` and the deleted-page set) are modelled
as deduplicated filtered lists; their iteration order is irrelevant because of
the final sort. -/
def pendingRevsGit (pages : List WPage) (needResync : Bool) (masterTime nowTs : Nat)
    (repoFiles ignores : List String) (forceExt : String)
    (logEvents : String → List LogEvent) : List PendingRev :=
  let base := pages.flatMap (fun p =>
    ((revisionsSince (gitLastChanged masterTime) p).map
      (fun r => (⟨p.title, r.user, r.comment, r.text, r.timestamp, "edit"⟩ : PendingRev)))
    ++ (if needResync then [resyncRev nowTs p] else []))
  let pageFiles := (repoFiles.filter (fun f => f ∉ ignores)).dedup
  let repoPages := pageFiles.map (filePage forceExt)
  let existing := pages.map (fun p => p.title)
  let deletedPages := (repoPages.filter (fun pn => pn ∉ existing)).dedup
  let eventRevs := deletedPages.flatMap (fun pn => (gitDeleteMoveRev pn (logEvents pn)).toList)
  sortRevs (base ++ eventRevs)

/-- A Python runtime error surfaced by the engine. -/
inductive PyErr
  | typeError
  | attributeError
  | unboundLocal
deriving DecidableEq

/-- phab-sync.py line 117: `self.re_force_ext('', _.replace('.d/', '/'))`
calls the compiled pattern object itself instead of its `.sub` method, which
raises `TypeError` on the first element; when `force_ext` is falsy the
attribute `re_force_ext` was never set (phab-sync.py lines 87-89), so the same
line raises `AttributeError` instead.  Either way the comprehension fails as
soon as it has any element. -/
def phabRepoPages (forceExt : String) (pageFiles : List String) : Except PyErr (List String) :=
  match pageFiles with
  | [] => Except.ok []
  | _ :: _ => Except.error (if forceExt = "" then PyErr.attributeError else PyErr.typeError)

/-- The delete/move scan of phab-sync.py lines 120-127: unlike git-sync.py it
has no `break`, so one revision is appended per matching log event. -/
def phabDeleteMoveRevs (pn : String) (events : List LogEvent) : List PendingRev :=
  (events.filter (fun e => e.etype = "delete" ∨ e.etype = "move")).map
    (fun e => ⟨pn, e.user, e.comment, "", e.timestamp, e.etype⟩)

/-- `PhabRepo._pending_revs` (phab-sync.py lines 100-129). -/
def pendingRevsPhab (pages : List WPage) (resync : Bool) (masterTime nowTs : Nat)
    (repoFiles ignores : List String) (forceExt : String)
    (logEvents : String → List LogEvent) : Except PyErr (List PendingRev) :=
  let base := pages.flatMap (fun p =>
    ((revisionsSince (phabLastChanged masterTime) p).map
      (fun r => (⟨p.title, r.user, r.comment, r.text, r.timestamp, "edit"⟩ : PendingRev)))
    ++ (if resync then [resyncRev nowTs p] else []))
  match phabRepoPages forceExt ((repoFiles.filter (fun f => f ∉ ignores)).dedup) with
  | Except.error e => Except.error e
  | Except.ok repoPages =>
    let existing := pages.map (fun p => p.title)
    let deletedPages := (repoPages.filter (fun pn => pn ∉ existing)).dedup
    let eventRevs := deletedPages.flatMap (fun pn => phabDeleteMoveRevs pn (logEvents pn))
    Except.ok (sortRevs (base ++ eventRevs))

/-! ### Phase A: applying pending revisions (`_wiki2git` / `_wiki2phab`) -/

/-- One commit made by `self.repo.index.commit(...)` during phase A, with the
staged file and its written content (`none` for a staged removal). -/
structure MadeCommit where
  message : String
  authorName : String
  authorEmail : String
  timestamp : Nat
  fileName : String
  content : Option String
deriving DecidableEq

/-- The mutable state phase A acts on: the working-tree files, the trace of
commits made (oldest first) and the `synced_files` list. -/
structure W2GState where
  files : List (String × String)
  commits : List MadeCommit
  synced : List String
deriving DecidableEq

/-- Association-list read of a working-tree file (`open(file_path, 'r')`). -/
def lookupFile (fs : List (String × String)) (f : String) : Option String :=
  (fs.find? (fun p => p.1 = f)).map (fun p => p.2)

/-- Association-list write of a working-tree file (`open(file_path, 'w')`). -/
def setFile (fs : List (String × String)) (f c : String) : List (String × String) :=
  (f, c) :: fs.filter (fun p => ¬ p.1 = f)

/-- Working-tree removal (`self.repo.index.remove([...], working_tree=True)`). -/
def removeFile (fs : List (String × String)) (f : String) : List (String × String) :=
  fs.filter (fun p => ¬ p.1 = f)

/-- `self._usermap[wiki_user]` with the `KeyError` fallback of git-sync.py
lines 180-185: an unmapped user becomes `(wiki_user, '')`. -/
def lookupUser (um : List (String × String × String)) (u : String) : String × String :=
  match um.find? (fun e => e.1 = u) with
  | some e => (e.2.1, e.2.2)
  | none => (u, "")

/-- The commit record produced for an applied edit/resync revision in
`_wiki2git` (git-sync.py lines 214-228). -/
def editCommitG (um : List (String × String × String)) (forceExt : String)
    (rev : PendingRev) : MadeCommit :=
  ⟨if rev.comment = "" then "*** празно резюме ***" else rev.comment,
   (lookupUser um rev.user).1, (lookupUser um rev.user).2, rev.timestamp,
   titleToPath forceExt rev.title, some (rev.text ++ "\n")⟩

/-- The commit record produced for a delete/move revision in `_wiki2git`
(git-sync.py lines 217-228). -/
def delCommitG (um : List (String × String × String)) (forceExt : String)
    (rev : PendingRev) : MadeCommit :=
  ⟨if rev.comment = "" then "*** празно резюме ***" else rev.comment,
   (lookupUser um rev.user).1, (lookupUser um rev.user).2, rev.timestamp,
   titleToPath forceExt rev.title, none⟩

/-- One iteration of the `for rev in revs` loop of `GitRepo._wiki2git`
(git-sync.py lines 167-231): skip bot edits; resolve the author through the
usermap; map the title to a path; skip a resync whose text equals the existing
file with trailing newlines stripped; otherwise write/stage or remove, commit
and record the file in `synced_files`.  The `self._pull()` call interacts only
with the phase-B pending-commit queue and has no effect on this state. -/
def processRev (um : List (String × String × String)) (bot forceExt : String)
    (st : W2GState) (rev : PendingRev) : W2GState :=
  if rev.user = bot then st
  else
    let fileName := titleToPath forceExt rev.title
    if rev.kind = "edit" ∨ rev.kind = "resync" then
      if rev.kind = "resync" ∧ (lookupFile st.files fileName).map rstripNLs = some rev.text then st
      else
        { files := setFile st.files fileName (rev.text ++ "\n"),
          commits := st.commits ++ [editCommitG um forceExt rev],
          synced := st.synced ++ [fileName] }
    else if rev.kind = "delete" ∨ rev.kind = "move" then
      { files := removeFile st.files fileName,
        commits := st.commits ++ [delCommitG um forceExt rev],
        synced := st.synced ++ [fileName] }
    else st

/-- The revision loop of `_wiki2git` over an already-sorted revision list. -/
def wiki2gitGo (um : List (String × String × String)) (bot forceExt : String)
    (st : W2GState) (revs : List PendingRev) : W2GState :=
  revs.foldl (processRev um bot forceExt) st

/-- `GitRepo._wiki2git` on a given pending-revision list: sort ascending by
timestamp (as `_pending_revs` does before returning) and apply in order. -/
def wiki2git (um : List (String × String × String)) (bot forceExt : String)
    (st : W2GState) (revs : List PendingRev) : W2GState :=
  wiki2gitGo um bot forceExt st (sortRevs revs)

/-- The commit record produced for an applied edit/resync revision in
`_wiki2phab` (phab-sync.py lines 154-198): the author is the wiki user with
spaces underscored, the email is empty except for the hard-coded `Iliev`
mapping. -/
def editCommitP (forceExt : String) (rev : PendingRev) : MadeCommit :=
  ⟨if rev.comment = "" then "*** празно резюме ***" else rev.comment,
   spaceToUnderscore rev.user,
   if rev.user = "Iliev" then "luchesar.iliev@gmail.com" else "",
   rev.timestamp, titleToPath forceExt rev.title, some (rev.text ++ "\n")⟩

/-- The commit record produced for a delete/move revision in `_wiki2phab`. -/
def delCommitP (forceExt : String) (rev : PendingRev) : MadeCommit :=
  ⟨if rev.comment = "" then "*** празно резюме ***" else rev.comment,
   spaceToUnderscore rev.user,
   if rev.user = "Iliev" then "luchesar.iliev@gmail.com" else "",
   rev.timestamp, titleToPath forceExt rev.title, none⟩

/-- One iteration of the `for rev in revs` loop of `PhabRepo._wiki2phab`
(phab-sync.py lines 150-201), mirroring `processRev` with the phab-specific
author handling. -/
def processRevPhab (bot forceExt : String) (st : W2GState) (rev : PendingRev) : W2GState :=
  if rev.user = bot then st
  else
    let fileName := titleToPath forceExt rev.title
    if rev.kind = "edit" ∨ rev.kind = "resync" then
      if rev.kind = "resync" ∧ (lookupFile st.files fileName).map rstripNLs = some rev.text then st
      else
        { files := setFile st.files fileName (rev.text ++ "\n"),
          commits := st.commits ++ [editCommitP forceExt rev],
          synced := st.synced ++ [fileName] }
    else if rev.kind = "delete" ∨ rev.kind = "move" then
      { files := removeFile st.files fileName,
        commits := st.commits ++ [delCommitP forceExt rev],
        synced := st.synced ++ [fileName] }
    else st

/-- The revision loop of `_wiki2phab` over an already-sorted revision list. -/
def wiki2phabGo (bot forceExt : String) (st : W2GState) (revs : List PendingRev) : W2GState :=
  revs.foldl (processRevPhab bot forceExt) st

/-! ### Phase A lemmas and claims -/

theorem processRev_bot (um : List (String × String × String)) (bot forceExt : String)
    (st : W2GState) (rev : PendingRev) (h : rev.user = bot) :
    processRev um bot forceExt st rev = st := by
  simp [processRev, h]

theorem processRevPhab_bot (bot forceExt : String) (st : W2GState) (rev : PendingRev)
    (h : rev.user = bot) :
    processRevPhab bot forceExt st rev = st := by
  simp [processRevPhab, h]

/-- C2: a pending revision authored by the bot identity (the configured wiki
username checked by `wiki_user == self.site.username()`) is skipped by both
engines' wiki-to-repository loops: removing it from the pending list changes
nothing, so it yields no commit. -/
theorem c2_bot_revisions_skipped (um : List (String × String × String))
    (bot forceExt : String) (st : W2GState) (revs1 revs2 : List PendingRev)
    (rev : PendingRev) (h : rev.user = bot) :
    wiki2gitGo um bot forceExt st (revs1 ++ rev :: revs2)
      = wiki2gitGo um bot forceExt st (revs1 ++ revs2)
    ∧ wiki2phabGo bot forceExt st (revs1 ++ rev :: revs2)
      = wiki2phabGo bot forceExt st (revs1 ++ revs2) := by
  have hg : ∀ s, processRev um bot forceExt s rev = s :=
    fun s => processRev_bot um bot forceExt s rev h
  have hp : ∀ s, processRevPhab bot forceExt s rev = s :=
    fun s => processRevPhab_bot bot forceExt s rev h
  constructor
  · simp [wiki2gitGo, List.foldl_append, hg]
  · simp [wiki2phabGo, List.foldl_append, hp]

/-- Witness for C2: a concrete bot-authored revision is dropped from the run. -/
theorem c2_bot_revisions_skipped_witness :
    (⟨"A", "SyncBot", "c", "x", 3, "edit"⟩ : PendingRev).user = "SyncBot"
    ∧ (wiki2gitGo [] "SyncBot" "lua" ⟨[], [], []⟩ ([] ++ (⟨"A", "SyncBot", "c", "x", 3, "edit"⟩ : PendingRev) :: [])
        = wiki2gitGo [] "SyncBot" "lua" ⟨[], [], []⟩ ([] ++ [])
      ∧ wiki2phabGo "SyncBot" "lua" ⟨[], [], []⟩ ([] ++ (⟨"A", "SyncBot", "c", "x", 3, "edit"⟩ : PendingRev) :: [])
        = wiki2phabGo "SyncBot" "lua" ⟨[], [], []⟩ ([] ++ [])) :=
  ⟨rfl, c2_bot_revisions_skipped [] "SyncBot" "lua" ⟨[], [], []⟩ [] []
    ⟨"A", "SyncBot", "c", "x", 3, "edit"⟩ rfl⟩

/-- C5 counterexample: a resync revision whose text is byte-identical to the
existing repository file (both are `"a\n"`) is NOT skipped — the code compares
the text against the file with trailing newlines stripped (`"a"`), the
comparison fails, and one commit is produced. -/
theorem c5_counterexample :
    lookupFile [("A.lua", "a\n")] (titleToPath "lua" "A") = some "a\n"
    ∧ (processRev [] "SyncBot" "lua" ⟨[("A.lua", "a\n")], [], []⟩
        ⟨"A", "UserX", "", "a\n", 5, "resync"⟩).commits.length = 1 := by
  decide

/-- C5 amended: a resync revision whose text equals the existing repository
file's content with trailing newlines stripped is skipped entirely by both
engines — the state is unchanged, so zero commits are produced for it. -/
theorem c5_resync_noop_skipped (um : List (String × String × String))
    (bot forceExt : String) (st : W2GState) (rev : PendingRev) (c : String)
    (hk : rev.kind = "resync")
    (hf : lookupFile st.files (titleToPath forceExt rev.title) = some c)
    (ht : rev.text = rstripNLs c) :
    processRev um bot forceExt st rev = st ∧ processRevPhab bot forceExt st rev = st := by
  constructor
  · by_cases hu : rev.user = bot
    · exact processRev_bot um bot forceExt st rev hu
    · simp [processRev, hu, hk, hf, ht]
  · by_cases hu : rev.user = bot
    · exact processRevPhab_bot bot forceExt st rev hu
    · simp [processRevPhab, hu, hk, hf, ht]

/-- Witness for the amended C5 at a concrete no-op resync. -/
theorem c5_resync_noop_skipped_witness :
    ((⟨"A", "UserX", "", "a", 5, "resync"⟩ : PendingRev).kind = "resync"
      ∧ lookupFile [("A.lua", "a\n\n")] (titleToPath "lua" "A") = some "a\n\n"
      ∧ (⟨"A", "UserX", "", "a", 5, "resync"⟩ : PendingRev).text = rstripNLs "a\n\n")
    ∧ (processRev [] "SyncBot" "lua" ⟨[("A.lua", "a\n\n")], [], []⟩
          ⟨"A", "UserX", "", "a", 5, "resync"⟩ = ⟨[("A.lua", "a\n\n")], [], []⟩
      ∧ processRevPhab "SyncBot" "lua" ⟨[("A.lua", "a\n\n")], [], []⟩
          ⟨"A", "UserX", "", "a", 5, "resync"⟩ = ⟨[("A.lua", "a\n\n")], [], []⟩) :=
  ⟨⟨rfl, by decide, by decide⟩,
   c5_resync_noop_skipped [] "SyncBot" "lua" ⟨[("A.lua", "a\n\n")], [], []⟩
     ⟨"A", "UserX", "", "a", 5, "resync"⟩ "a\n\n" rfl (by decide) (by decide)⟩

theorem insertRev_perm (r : PendingRev) (l : List PendingRev) :
    List.Perm (insertRev r l) (r :: l) := by
  induction l with
  | nil => rfl
  | cons x xs ih =>
    rw [insertRev]
    by_cases h : x.timestamp ≤ r.timestamp
    · rw [if_pos h]
      exact (ih.cons x).trans (List.Perm.swap r x xs)
    · rw [if_neg h]

theorem sortRevs_perm (l : List PendingRev) : List.Perm (sortRevs l) l := by
  induction l with
  | nil => rfl
  | cons x xs ih =>
    exact (insertRev_perm x (sortRevs xs)).trans (ih.cons x)

theorem processRev_edit (um : List (String × String × String)) (bot forceExt : String)
    (st : W2GState) (rev : PendingRev) (hu : rev.user ≠ bot) (hk : rev.kind = "edit") :
    processRev um bot forceExt st rev =
      { files := setFile st.files (titleToPath forceExt rev.title) (rev.text ++ "\n"),
        commits := st.commits ++ [editCommitG um forceExt rev],
        synced := st.synced ++ [titleToPath forceExt rev.title] } := by
  simp [processRev, hu, hk]

/-- C4: three pending revisions with strictly ascending timestamps, arriving
in any of the six possible input orders, are applied and committed by
`_wiki2git` in exactly ascending timestamp order, producing exactly three
commits in that order. -/
theorem c4_commit_ordering (um : List (String × String × String))
    (bot forceExt : String) (st : W2GState) (r1 r2 r3 : PendingRev)
    (l : List PendingRev)
    (ht12 : r1.timestamp < r2.timestamp) (ht23 : r2.timestamp < r3.timestamp)
    (hu1 : r1.user ≠ bot) (hu2 : r2.user ≠ bot) (hu3 : r3.user ≠ bot)
    (hk1 : r1.kind = "edit") (hk2 : r2.kind = "edit") (hk3 : r3.kind = "edit")
    (hl : l ∈ [[r1, r2, r3], [r1, r3, r2], [r2, r1, r3], [r2, r3, r1], [r3, r1, r2], [r3, r2, r1]]) :
    (wiki2git um bot forceExt st l).commits
      = st.commits ++ [editCommitG um forceExt r1, editCommitG um forceExt r2,
          editCommitG um forceExt r3] := by
  have le12 : r1.timestamp ≤ r2.timestamp := le_of_lt ht12
  have le23 : r2.timestamp ≤ r3.timestamp := le_of_lt ht23
  have le13 : r1.timestamp ≤ r3.timestamp := le_of_lt (ht12.trans ht23)
  have n21 : ¬ r2.timestamp ≤ r1.timestamp := not_le.mpr ht12
  have n32 : ¬ r3.timestamp ≤ r2.timestamp := not_le.mpr ht23
  have n31 : ¬ r3.timestamp ≤ r1.timestamp := not_le.mpr (ht12.trans ht23)
  have pe : ∀ s r, r.user ≠ bot → r.kind = "edit" → processRev um bot forceExt s r =
      { files := setFile s.files (titleToPath forceExt r.title) (r.text ++ "\n"),
        commits := s.commits ++ [editCommitG um forceExt r],
        synced := s.synced ++ [titleToPath forceExt r.title] } :=
    fun s r => processRev_edit um bot forceExt s r
  simp only [List.mem_cons, List.mem_singleton, List.not_mem_nil, or_false] at hl
  rcases hl with rfl | rfl | rfl | rfl | rfl | rfl <;>
    simp [wiki2git, sortRevs, insertRev, wiki2gitGo, List.foldl,
      le12, le23, le13, n21, n32, n31,
      pe _ r1 hu1 hk1, pe _ r2 hu2 hk2, pe _ r3 hu3 hk3]

/-- Witness for C4 at three concrete revisions arriving out of order. -/
theorem c4_commit_ordering_witness :
    ((3 : Nat) < 5 ∧ (5 : Nat) < 9)
    ∧ (wiki2git [] "SyncBot" "lua" ⟨[], [], []⟩
        [⟨"C", "W", "c3", "z", 9, "edit"⟩, ⟨"A", "U", "c1", "x", 3, "edit"⟩,
         ⟨"B", "V", "c2", "y", 5, "edit"⟩]).commits
      = [] ++ [editCommitG [] "lua" ⟨"A", "U", "c1", "x", 3, "edit"⟩,
          editCommitG [] "lua" ⟨"B", "V", "c2", "y", 5, "edit"⟩,
          editCommitG [] "lua" ⟨"C", "W", "c3", "z", 9, "edit"⟩] :=
  ⟨⟨by decide, by decide⟩,
   c4_commit_ordering [] "SyncBot" "lua" ⟨[], [], []⟩
     ⟨"A", "U", "c1", "x", 3, "edit"⟩ ⟨"B", "V", "c2", "y", 5, "edit"⟩
     ⟨"C", "W", "c3", "z", 9, "edit"⟩ _
     (by decide) (by decide) (by decide) (by decide) (by decide)
     rfl rfl rfl (by decide)⟩

/-- C9: the phase-A watermark is the latest `master` commit time plus the
positive one-second skew (committed date for git-sync, authored date for
phab-sync); `_pending_revs` filters each page's revisions against exactly that
bound; and when a full resync is pending, the synthetic resync revision of
every matching page is part of the pending set whatever the watermark is. -/
theorem c9_watermark_and_resync :
    (∀ t, gitLastChanged t = t + 1 ∧ 0 < 1)
    ∧ (∀ t, phabLastChanged t = t + 1)
    ∧ (∀ mt p, revisionsSince (gitLastChanged mt) p
        = p.revs.filter (fun r => mt + 1 ≤ r.timestamp))
    ∧ (∀ pages masterTime nowTs repoFiles ignores forceExt logEvents p, p ∈ pages →
        resyncRev nowTs p ∈
          pendingRevsGit pages true masterTime nowTs repoFiles ignores forceExt logEvents) := by
  refine ⟨fun t => ⟨rfl, Nat.one_pos⟩, fun t => rfl, fun mt p => rfl, ?_⟩
  intro pages masterTime nowTs repoFiles ignores forceExt logEvents p hp
  unfold pendingRevsGit
  rw [(sortRevs_perm _).mem_iff]
  apply List.mem_append_left
  apply List.mem_flatMap.mpr
  exact ⟨p, hp, by simp⟩

/-- Witness for C9 at a concrete page and state. -/
theorem c9_watermark_and_resync_witness :
    (gitLastChanged 10 = 11 ∧ 0 < 1)
    ∧ ((⟨"A", [], "x"⟩ : WPage) ∈ [(⟨"A", [], "x"⟩ : WPage)]
      ∧ resyncRev 7 ⟨"A", [], "x"⟩ ∈
          pendingRevsGit [⟨"A", [], "x"⟩] true 0 7 [] [] "" (fun _ => [])) :=
  ⟨c9_watermark_and_resync.1 10,
   ⟨by decide,
    c9_watermark_and_resync.2.2.2 [⟨"A", [], "x"⟩] 0 7 [] [] "" (fun _ => [])
      ⟨"A", [], "x"⟩ (by decide)⟩⟩

/-- C8: the delete/move pending-revision scan.  In phab-sync the scan is
broken twice: line 117 calls the compiled pattern object instead of `.sub`,
so `_pending_revs` raises `TypeError` as soon as one non-ignored file is
tracked; and the event loop (lines 120-127) lacks git-sync's `break`, so it
would append one revision per delete/move event instead of only the latest.
git-sync's scan (with `break`) keeps exactly the newest matching event. -/
theorem c8_phab_delete_scan_broken :
    pendingRevsPhab [] false 0 0 ["A.lua"] [] "lua" (fun _ => [])
      = Except.error PyErr.typeError
    ∧ (phabDeleteMoveRevs "A"
        [⟨"delete", "U", "c1", 9⟩, ⟨"delete", "V", "c2", 4⟩]).length = 2
    ∧ gitDeleteMoveRev "A" [⟨"delete", "U", "c1", 9⟩, ⟨"delete", "V", "c2", 4⟩]
      = some ⟨"A", "U", "c1", "", 9, "delete"⟩ :=
  ⟨rfl, rfl, rfl⟩

/-! ### Phase B data model: pending commits (`_git2wiki` / `_phab2wiki`) -/

/-- The outcome of `self.repo.commit(commit).tree.join(file_name)`
(git-sync.py lines 262-268, phab-sync.py lines 237-243): the blob's content, a
`KeyError` whose message ends in `'<file>' not found` (the file is absent at
that commit), or any other `KeyError`. -/
inductive Lookup
  | found (s : String)
  | notFound
  | otherError
deriving DecidableEq

/-- A pending commit as recorded by `_pull` (hexsha, message, committer name,
committed datetime rendered as a string, whether the message matches
`re.search(r'\bDO\s+NOT\s+(MERGE|SYNC)\b', ...)`, the changed-file list from
`git diff-tree`, and the per-file blob lookup at this commit). -/
structure BCommit where
  hexsha : String
  message : String
  committerName : String
  committedDatetime : String
  doNotSync : Bool
  files : List String
  contentAt : String → Lookup

/-- A wiki write attempted during phase B: `page.save(...)` with the text that
was assigned to `page.text`, or `page.delete(reason=..., prompt=False)`. -/
inductive WikiAction
  | save (page : String) (text : String) (summary : String)
  | delete (page : String) (reason : String)
deriving DecidableEq

/-- One call to `LogPage.log(...)` (phab-sync.py lines 51-75): the audit-log
append for an edit, delete or conflict.  `oldid` is the diff reference passed
only for edits. -/
structure LogRecord where
  logType : String
  user : String
  repoName : String
  sha : String
  datetime : String
  message : String
  targetPage : String
  oldid : Option Nat
deriving DecidableEq

/-- The per-repository configuration phase B reads: namespace, forced
extension, repository name, the `synced_from_wiki` list produced by phase A,
and the wiki's `page.latest_revision_id` for the edit log entry. -/
structure BEnv where
  nsName : String
  forceExt : String
  repoName : String
  synced : List String
  latestRevId : String → Nat

/-- The mutable observables of phase B: attempted wiki actions, activity-log
appends, the `_need_resync` flag, and the Python function-local
`file_git_blob` variable, which survives loop iterations and is unbound
(`none`) until the first successful tree lookup. -/
structure BOut where
  actions : List WikiAction
  logs : List LogRecord
  needResync : Bool
  blobVar : Option String
deriving DecidableEq

/-- `GitRepo._create_summary` (git-sync.py lines 93-101). -/
def createSummary (committer repoName sha message : String) : String :=
  let m := replNlSpace message
  "[[User:" ++ committer ++ "|" ++ committer ++ "]] | https://github.com/wikimedia-bg/"
    ++ repoName ++ "/commit/" ++ sha ++ " | "
    ++ (m.toList.take 400).asString ++ (if 400 < m.toList.length then ".." else "")

/-- The summary/reason format of `_phab2wiki` (phab-sync.py lines 250-253 and
272-275). -/
def phabSummary (committer datetime message : String) : String :=
  "[[User:" ++ committer ++ "|" ++ committer ++ "]] @ " ++ datetime ++ ": " ++ delNl message

/-- One iteration of the `for file_name in self._pending_commits[commit]` loop
of `GitRepo._git2wiki` (git-sync.py lines 243-284): a path synced from the
wiki this cycle only sets `_need_resync`; otherwise the blob at this commit is
looked up — absence means `page.delete`, presence means `page.save` of the
content with trailing newlines stripped, and an unexpected `KeyError` prints a
warning but then falls through to the save branch, which reads the stale
`file_git_blob` from a previous iteration or raises `UnboundLocalError` if
there was none.  `page.save`/`page.delete` failures (`apiOk` false) are caught
and change nothing. -/
def processFileG (env : BEnv) (apiOk : WikiAction → Bool) (c : BCommit) (st : BOut)
    (f : String) : Except PyErr BOut :=
  let pageName := pathToPageName env.nsName env.forceExt f
  let summary := createSummary (stripWsAngle c.committerName) env.repoName c.hexsha c.message
  if f ∈ env.synced then
    Except.ok { st with needResync := true }
  else
    match c.contentAt f with
    | Lookup.found s =>
        let act := WikiAction.save pageName (rstripNLs s) summary
        let _ := apiOk act
        Except.ok { st with blobVar := some s, actions := st.actions ++ [act] }
    | Lookup.notFound =>
        let act := WikiAction.delete pageName summary
        let _ := apiOk act
        Except.ok { st with actions := st.actions ++ [act] }
    | Lookup.otherError =>
        match st.blobVar with
        | none => Except.error PyErr.unboundLocal
        | some s =>
            let act := WikiAction.save pageName (rstripNLs s) summary
            let _ := apiOk act
            Except.ok { st with actions := st.actions ++ [act] }

/-- The file loop of `_git2wiki` over one commit's changed files. -/
def processFilesG (env : BEnv) (apiOk : WikiAction → Bool) (c : BCommit) (st : BOut) :
    List String → Except PyErr BOut
  | [] => Except.ok st
  | f :: fs =>
    match processFileG env apiOk c st f with
    | Except.error e => Except.error e
    | Except.ok st' => processFilesG env apiOk c st' fs

/-- `GitRepo._git2wiki` (git-sync.py lines 234-284) over the snapshot
`commit_list` of the pending-commit queue: DO-NOT-MERGE/SYNC commits are
dropped; each other commit's files are processed in order; every processed
commit is deleted from the queue, so on completion the queue holds none of
them (the second component). -/
def git2wikiGo (env : BEnv) (apiOk : WikiAction → Bool) (st : BOut) :
    List BCommit → Except PyErr (BOut × List BCommit)
  | [] => Except.ok (st, [])
  | c :: cs =>
    if c.doNotSync then git2wikiGo env apiOk st cs
    else
      match processFilesG env apiOk c st c.files with
      | Except.error e => Except.error e
      | Except.ok st' => git2wikiGo env apiOk st' cs

/-- One iteration of the file loop of `PhabRepo._phab2wiki` (phab-sync.py
lines 213-287).  Differences from git-sync: a conflict is recorded on the
activity log (but no resync flag exists to set); successful saves and deletes
append an edit/delete log entry; the same stale-`file_git_blob` fall-through
follows an unexpected `KeyError`. -/
def processFileP (env : BEnv) (apiOk : WikiAction → Bool) (c : BCommit) (st : BOut)
    (f : String) : Except PyErr BOut :=
  let pageName := pathToPageName env.nsName env.forceExt f
  let committer := stripWsAngle c.committerName
  if f ∈ env.synced then
    Except.ok { st with logs := st.logs ++
      [⟨"conflict", committer, env.repoName, c.hexsha, c.committedDatetime, c.message,
        pageName, none⟩] }
  else
    match c.contentAt f with
    | Lookup.found s =>
        let act := WikiAction.save pageName (rstripNLs s)
          (phabSummary committer c.committedDatetime c.message)
        Except.ok
          { st with
            blobVar := some s
            actions := st.actions ++ [act]
            logs := st.logs ++
              (if apiOk act then
                [⟨"edit", committer, env.repoName, c.hexsha, c.committedDatetime, c.message,
                  pageName, some (env.latestRevId pageName)⟩]
               else []) }
    | Lookup.notFound =>
        let act := WikiAction.delete pageName
          (phabSummary committer c.committedDatetime c.message)
        Except.ok
          { st with
            actions := st.actions ++ [act]
            logs := st.logs ++
              (if apiOk act then
                [⟨"delete", committer, env.repoName, c.hexsha, c.committedDatetime, c.message,
                  pageName, none⟩]
               else []) }
    | Lookup.otherError =>
        match st.blobVar with
        | none => Except.error PyErr.unboundLocal
        | some s =>
            let act := WikiAction.save pageName (rstripNLs s)
              (phabSummary committer c.committedDatetime c.message)
            Except.ok
              { st with
                actions := st.actions ++ [act]
                logs := st.logs ++
                  (if apiOk act then
                    [⟨"edit", committer, env.repoName, c.hexsha, c.committedDatetime, c.message,
                      pageName, some (env.latestRevId pageName)⟩]
                   else []) }

/-- The file loop of `_phab2wiki` over one commit's changed files. -/
def processFilesP (env : BEnv) (apiOk : WikiAction → Bool) (c : BCommit) (st : BOut) :
    List String → Except PyErr BOut
  | [] => Except.ok st
  | f :: fs =>
    match processFileP env apiOk c st f with
    | Except.error e => Except.error e
    | Except.ok st' => processFilesP env apiOk c st' fs

/-- `PhabRepo._phab2wiki` (phab-sync.py lines 204-289) over the snapshot of
the pending-commit queue. -/
def phab2wikiGo (env : BEnv) (apiOk : WikiAction → Bool) (st : BOut) :
    List BCommit → Except PyErr (BOut × List BCommit)
  | [] => Except.ok (st, [])
  | c :: cs =>
    if c.doNotSync then phab2wikiGo env apiOk st cs
    else
      match processFilesP env apiOk c st c.files with
      | Except.error e => Except.error e
      | Except.ok st' => phab2wikiGo env apiOk st' cs

/-! ### Phase B lemmas and claims -/

/-- C1 counterexample: a concrete pending commit touching a path that phase A
recorded as synced from the wiki.  The git-sync engine performs no wiki write
and sets the resync flag, but appends nothing to any activity log (it has no
log page at all), so the claimed conflict record is never emitted; the
phab-sync engine, conversely, leaves no resync scheduled. -/
theorem c1_counterexample :
    (processFileG ⟨"Модул", "lua", "repo", ["A.lua"], fun _ => 0⟩ (fun _ => true)
        ⟨"sha1", "msg", "Committer", "2024-01-01", false, ["A.lua"], fun _ => Lookup.found "x\n"⟩
        ⟨[], [], false, none⟩ "A.lua").map (fun r => (r.actions, r.logs, r.needResync))
      = Except.ok ([], [], true)
    ∧ (processFileP ⟨"Модул", "lua", "repo", ["A.lua"], fun _ => 0⟩ (fun _ => true)
        ⟨"sha1", "msg", "Committer", "2024-01-01", false, ["A.lua"], fun _ => Lookup.found "x\n"⟩
        ⟨[], [], false, none⟩ "A.lua").map (fun r => (r.actions, r.needResync))
      = Except.ok ([], false) :=
  ⟨rfl, rfl⟩

/-- C1 amended: for a changed path recorded as synced from the wiki in this
cycle, neither engine performs a wiki write for the path; the git-sync engine
sets `_need_resync` so that the next cycle re-exports the page (but emits no
conflict record — it has no activity log), while the phab-sync engine emits a
conflict record to the activity log (but schedules no resync — it has no
resync flag). -/
theorem c1_same_cycle_conflict (env : BEnv) (apiOk : WikiAction → Bool) (c : BCommit)
    (st : BOut) (f : String) (h : f ∈ env.synced) :
    processFileG env apiOk c st f = Except.ok { st with needResync := true }
    ∧ processFileP env apiOk c st f = Except.ok { st with logs := st.logs ++
        [⟨"conflict", stripWsAngle c.committerName, env.repoName, c.hexsha,
          c.committedDatetime, c.message, pathToPageName env.nsName env.forceExt f, none⟩] } := by
  constructor
  · simp [processFileG, h]
  · simp [processFileP, h]

/-- Witness for the amended C1 at a concrete conflicting path. -/
theorem c1_same_cycle_conflict_witness :
    ("A.lua" ∈ (⟨"Модул", "lua", "repo", ["A.lua"], fun _ => 0⟩ : BEnv).synced)
    ∧ (processFileG ⟨"Модул", "lua", "repo", ["A.lua"], fun _ => 0⟩ (fun _ => true)
          ⟨"sha1", "msg", "C", "2024-01-01", false, ["A.lua"], fun _ => Lookup.found "x\n"⟩
          ⟨[], [], false, none⟩ "A.lua"
        = Except.ok { (⟨[], [], false, none⟩ : BOut) with needResync := true }
      ∧ processFileP ⟨"Модул", "lua", "repo", ["A.lua"], fun _ => 0⟩ (fun _ => true)
          ⟨"sha1", "msg", "C", "2024-01-01", false, ["A.lua"], fun _ => Lookup.found "x\n"⟩
          ⟨[], [], false, none⟩ "A.lua"
        = Except.ok { (⟨[], [], false, none⟩ : BOut) with logs := [] ++
            [⟨"conflict", stripWsAngle "C", "repo", "sha1", "2024-01-01", "msg",
              pathToPageName "Модул" "lua" "A.lua", none⟩] }) :=
  ⟨List.mem_singleton.mpr rfl,
   c1_same_cycle_conflict ⟨"Модул", "lua", "repo", ["A.lua"], fun _ => 0⟩ (fun _ => true)
     ⟨"sha1", "msg", "C", "2024-01-01", false, ["A.lua"], fun _ => Lookup.found "x\n"⟩
     ⟨[], [], false, none⟩ "A.lua" (List.mem_singleton.mpr rfl)⟩

/-- C6: at a pending commit, presence of the file is an edit (the page is
saved with the blob's content, trailing newlines stripped, under the formatted
attribution summary) and absence is a deletion (the page is deleted with the
formatted attribution reason); but an unexpected lookup failure is NOT only a
warning: after printing the warning the code falls through to the save branch,
which raises `UnboundLocalError` when no earlier iteration bound
`file_git_blob`, and otherwise saves the stale content of a previous file. -/
theorem c6_lookup_handling :
    (processFileG ⟨"Модул", "lua", "repo", [], fun _ => 0⟩ (fun _ => true)
        ⟨"sha1", "msg", "C", "2024-01-01", false, ["B.lua"], fun _ => Lookup.found "x\n"⟩
        ⟨[], [], false, none⟩ "B.lua").map (fun r => r.actions)
      = Except.ok [WikiAction.save "Модул:B" "x"
          "[[User:C|C]] | https://github.com/wikimedia-bg/repo/commit/sha1 | msg"]
    ∧ (processFileG ⟨"Модул", "lua", "repo", [], fun _ => 0⟩ (fun _ => true)
        ⟨"sha1", "msg", "C", "2024-01-01", false, ["B.lua"], fun _ => Lookup.notFound⟩
        ⟨[], [], false, none⟩ "B.lua").map (fun r => r.actions)
      = Except.ok [WikiAction.delete "Модул:B"
          "[[User:C|C]] | https://github.com/wikimedia-bg/repo/commit/sha1 | msg"]
    ∧ git2wikiGo ⟨"Модул", "lua", "repo", [], fun _ => 0⟩ (fun _ => true)
        ⟨[], [], false, none⟩
        [⟨"sha1", "msg", "C", "2024-01-01", false, ["B.lua"], fun _ => Lookup.otherError⟩]
      = Except.error PyErr.unboundLocal
    ∧ (processFileG ⟨"Модул", "lua", "repo", [], fun _ => 0⟩ (fun _ => true)
        ⟨"sha1", "msg", "C", "2024-01-01", false, ["B.lua"], fun _ => Lookup.otherError⟩
        ⟨[], [], false, some "stale\n"⟩ "B.lua").map (fun r => r.actions)
      = Except.ok [WikiAction.save "Модул:B" "stale"
          "[[User:C|C]] | https://github.com/wikimedia-bg/repo/commit/sha1 | msg"] :=
  ⟨rfl, rfl, rfl, rfl⟩

theorem processFileG_oracle (env : BEnv) (o1 o2 : WikiAction → Bool) (c : BCommit)
    (st : BOut) (f : String) :
    processFileG env o1 c st f = processFileG env o2 c st f := rfl

theorem processFilesG_oracle (env : BEnv) (o1 o2 : WikiAction → Bool) (c : BCommit) :
    ∀ (fs : List String) (st : BOut),
      processFilesG env o1 c st fs = processFilesG env o2 c st fs := by
  intro fs
  induction fs with
  | nil => intro st; rfl
  | cons f fs ih =>
    intro st
    rw [processFilesG, processFilesG, ← processFileG_oracle env o1 o2 c st f]
    cases processFileG env o1 c st f with
    | error e => rfl
    | ok st' => exact ih st'

theorem git2wikiGo_oracle (env : BEnv) (o1 o2 : WikiAction → Bool) :
    ∀ (cs : List BCommit) (st : BOut),
      git2wikiGo env o1 st cs = git2wikiGo env o2 st cs := by
  intro cs
  induction cs with
  | nil => intro st; rfl
  | cons c cs ih =>
    intro st
    rw [git2wikiGo, git2wikiGo]
    by_cases hd : c.doNotSync
    · simp only [hd, if_true]
      exact ih st
    · simp only [hd, if_false]
      rw [← processFilesG_oracle env o1 o2 c c.files st]
      cases processFilesG env o1 c st c.files with
      | error e => rfl
      | ok st' => exact ih st'

theorem processFileP_core (env : BEnv) (o1 o2 : WikiAction → Bool) (c : BCommit)
    (f : String) (st1 st2 : BOut)
    (ha : st1.actions = st2.actions) (hb : st1.blobVar = st2.blobVar) :
    (processFileP env o1 c st1 f).map (fun r => (r.actions, r.blobVar))
      = (processFileP env o2 c st2 f).map (fun r => (r.actions, r.blobVar)) := by
  by_cases hs : f ∈ env.synced
  · simp [processFileP, hs, ha, hb, Except.map]
  · simp only [processFileP, hs, if_neg, if_false]
    cases c.contentAt f with
    | found s => simp [ha, Except.map]
    | notFound => simp [ha, hb, Except.map]
    | otherError =>
      rw [← hb]
      cases st1.blobVar with
      | none => simp [Except.map]
      | some s => simp [ha, Except.map]

theorem processFilesP_core (env : BEnv) (o1 o2 : WikiAction → Bool) (c : BCommit) :
    ∀ (fs : List String) (st1 st2 : BOut),
      st1.actions = st2.actions → st1.blobVar = st2.blobVar →
      (processFilesP env o1 c st1 fs).map (fun r => (r.actions, r.blobVar))
        = (processFilesP env o2 c st2 fs).map (fun r => (r.actions, r.blobVar)) := by
  intro fs
  induction fs with
  | nil =>
    intro st1 st2 ha hb
    simp [processFilesP, ha, hb, Except.map]
  | cons f fs ih =>
    intro st1 st2 ha hb
    have hcore := processFileP_core env o1 o2 c f st1 st2 ha hb
    rw [processFilesP, processFilesP]
    cases h1 : processFileP env o1 c st1 f with
    | error e =>
      rw [h1] at hcore
      cases h2 : processFileP env o2 c st2 f with
      | error e' =>
        rw [h2] at hcore
        simp only [Except.map] at hcore
        cases hcore
        rfl
      | ok r2 =>
        rw [h2] at hcore
        simp [Except.map] at hcore
    | ok r1 =>
      rw [h1] at hcore
      cases h2 : processFileP env o2 c st2 f with
      | error e' =>
        rw [h2] at hcore
        simp [Except.map] at hcore
      | ok r2 =>
        rw [h2] at hcore
        simp only [Except.map, Except.ok.injEq, Prod.mk.injEq] at hcore
        exact ih r1 r2 hcore.1 hcore.2

theorem phab2wikiGo_core (env : BEnv) (o1 o2 : WikiAction → Bool) :
    ∀ (cs : List BCommit) (st1 st2 : BOut),
      st1.actions = st2.actions → st1.blobVar = st2.blobVar →
      (phab2wikiGo env o1 st1 cs).map (fun r => (r.1.actions, r.1.blobVar, r.2))
        = (phab2wikiGo env o2 st2 cs).map (fun r => (r.1.actions, r.1.blobVar, r.2)) := by
  intro cs
  induction cs with
  | nil =>
    intro st1 st2 ha hb
    simp [phab2wikiGo, ha, hb, Except.map]
  | cons c cs ih =>
    intro st1 st2 ha hb
    rw [phab2wikiGo, phab2wikiGo]
    by_cases hd : c.doNotSync
    · simp only [hd, if_true]
      exact ih st1 st2 ha hb
    · simp only [hd, if_false]
      have hcore := processFilesP_core env o1 o2 c c.files st1 st2 ha hb
      cases h1 : processFilesP env o1 c st1 c.files with
      | error e =>
        rw [h1] at hcore
        cases h2 : processFilesP env o2 c st2 c.files with
        | error e' =>
          rw [h2] at hcore
          simp only [Except.map] at hcore
          cases hcore
          rfl
        | ok r2 =>
          rw [h2] at hcore
          simp [Except.map] at hcore
      | ok r1 =>
        rw [h1] at hcore
        cases h2 : processFilesP env o2 c st2 c.files with
        | error e' =>
          rw [h2] at hcore
          simp [Except.map] at hcore
        | ok r2 =>
          rw [h2] at hcore
          simp only [Except.map, Except.ok.injEq, Prod.mk.injEq] at hcore
          exact ih r1 r2 hcore.1 hcore.2

theorem processFileG_ok (env : BEnv) (o : WikiAction → Bool) (c : BCommit)
    (st : BOut) (f : String) (h : c.contentAt f ≠ Lookup.otherError) :
    ∃ st', processFileG env o c st f = Except.ok st' := by
  cases hres : processFileG env o c st f with
  | ok st' => exact ⟨st', rfl⟩
  | error e =>
    exfalso
    by_cases hs : f ∈ env.synced
    · simp [processFileG, hs] at hres
    · cases hc : c.contentAt f with
      | found s => simp [processFileG, hs, hc] at hres
      | notFound => simp [processFileG, hs, hc] at hres
      | otherError => exact h hc

theorem processFilesG_ok (env : BEnv) (o : WikiAction → Bool) (c : BCommit) :
    ∀ (fs : List String) (st : BOut), (∀ f ∈ fs, c.contentAt f ≠ Lookup.otherError) →
      ∃ st', processFilesG env o c st fs = Except.ok st' := by
  intro fs
  induction fs with
  | nil => exact fun st _ => ⟨st, rfl⟩
  | cons f fs ih =>
    intro st h
    obtain ⟨st', h1⟩ := processFileG_ok env o c st f (h f (List.mem_cons_self f fs))
    obtain ⟨st'', h2⟩ := ih st' (fun g hg => h g (List.mem_cons_of_mem f hg))
    refine ⟨st'', ?_⟩
    rw [processFilesG, h1]
    exact h2

theorem processFileP_ok (env : BEnv) (o : WikiAction → Bool) (c : BCommit)
    (st : BOut) (f : String) (h : c.contentAt f ≠ Lookup.otherError) :
    ∃ st', processFileP env o c st f = Except.ok st' := by
  cases hres : processFileP env o c st f with
  | ok st' => exact ⟨st', rfl⟩
  | error e =>
    exfalso
    by_cases hs : f ∈ env.synced
    · simp [processFileP, hs] at hres
    · cases hc : c.contentAt f with
      | found s => simp [processFileP, hs, hc] at hres
      | notFound => simp [processFileP, hs, hc] at hres
      | otherError => exact h hc

theorem processFilesP_ok (env : BEnv) (o : WikiAction → Bool) (c : BCommit) :
    ∀ (fs : List String) (st : BOut), (∀ f ∈ fs, c.contentAt f ≠ Lookup.otherError) →
      ∃ st', processFilesP env o c st fs = Except.ok st' := by
  intro fs
  induction fs with
  | nil => exact fun st _ => ⟨st, rfl⟩
  | cons f fs ih =>
    intro st h
    obtain ⟨st', h1⟩ := processFileP_ok env o c st f (h f (List.mem_cons_self f fs))
    obtain ⟨st'', h2⟩ := ih st' (fun g hg => h g (List.mem_cons_of_mem f hg))
    refine ⟨st'', ?_⟩
    rw [processFilesP, h1]
    exact h2

theorem git2wikiGo_ok (env : BEnv) (o : WikiAction → Bool) :
    ∀ (cs : List BCommit) (st : BOut),
      (∀ c ∈ cs, ∀ f ∈ c.files, c.contentAt f ≠ Lookup.otherError) →
      ∃ out, git2wikiGo env o st cs = Except.ok (out, []) := by
  intro cs
  induction cs with
  | nil => exact fun st _ => ⟨st, rfl⟩
  | cons c cs ih =>
    intro st h
    rw [git2wikiGo]
    by_cases hd : c.doNotSync
    · simp only [hd, if_true]
      exact ih st (fun d hd' => h d (List.mem_cons_of_mem c hd'))
    · simp only [hd, Bool.false_eq_true, if_false]
      obtain ⟨st', h1⟩ := processFilesG_ok env o c c.files st (h c (List.mem_cons_self c cs))
      obtain ⟨out, h2⟩ := ih st' (fun d hd' => h d (List.mem_cons_of_mem c hd'))
      refine ⟨out, ?_⟩
      rw [h1]
      exact h2

theorem phab2wikiGo_ok (env : BEnv) (o : WikiAction → Bool) :
    ∀ (cs : List BCommit) (st : BOut),
      (∀ c ∈ cs, ∀ f ∈ c.files, c.contentAt f ≠ Lookup.otherError) →
      ∃ out, phab2wikiGo env o st cs = Except.ok (out, []) := by
  intro cs
  induction cs with
  | nil => exact fun st _ => ⟨st, rfl⟩
  | cons c cs ih =>
    intro st h
    rw [phab2wikiGo]
    by_cases hd : c.doNotSync
    · simp only [hd, if_true]
      exact ih st (fun d hd' => h d (List.mem_cons_of_mem c hd'))
    · simp only [hd, Bool.false_eq_true, if_false]
      obtain ⟨st', h1⟩ := processFilesP_ok env o c c.files st (h c (List.mem_cons_self c cs))
      obtain ⟨out, h2⟩ := ih st' (fun d hd' => h d (List.mem_cons_of_mem c hd'))
      refine ⟨out, ?_⟩
      rw [h1]
      exact h2

/-- C7: the outcome of the individual `page.save`/`page.delete` calls (the
`apiOk` oracle) is caught per item and never influences which wiki writes are
attempted, nor the remaining queue, in either engine; and when the tree
lookups yield no unexpected error, the whole phase completes with every
processed commit removed from the pending queue, whatever the write outcomes
were. -/
theorem c7_failures_contained (env : BEnv) (o1 o2 : WikiAction → Bool) (st : BOut)
    (commits : List BCommit)
    (h : ∀ c ∈ commits, ∀ f ∈ c.files, c.contentAt f ≠ Lookup.otherError) :
    git2wikiGo env o1 st commits = git2wikiGo env o2 st commits
    ∧ (phab2wikiGo env o1 st commits).map (fun r => (r.1.actions, r.1.blobVar, r.2))
        = (phab2wikiGo env o2 st commits).map (fun r => (r.1.actions, r.1.blobVar, r.2))
    ∧ (∃ out, git2wikiGo env o1 st commits = Except.ok (out, []))
    ∧ (∃ out, phab2wikiGo env o1 st commits = Except.ok (out, [])) :=
  ⟨git2wikiGo_oracle env o1 o2 commits st,
   phab2wikiGo_core env o1 o2 commits st st rfl rfl,
   git2wikiGo_ok env o1 commits st h,
   phab2wikiGo_ok env o1 commits st h⟩

/-- Witness for C7: one commit with one present and one absent file, compared
under an oracle that always succeeds and one that always fails. -/
theorem c7_failures_contained_witness :
    (∀ c ∈ [(⟨"sha1", "msg", "C", "2024-01-01", false, ["B.lua", "D.lua"],
        fun f => if f = "B.lua" then Lookup.found "x\n" else Lookup.notFound⟩ : BCommit)],
      ∀ f ∈ c.files, c.contentAt f ≠ Lookup.otherError)
    ∧ (git2wikiGo ⟨"Модул", "lua", "repo", [], fun _ => 0⟩ (fun _ => true) ⟨[], [], false, none⟩
          [⟨"sha1", "msg", "C", "2024-01-01", false, ["B.lua", "D.lua"],
            fun f => if f = "B.lua" then Lookup.found "x\n" else Lookup.notFound⟩]
        = git2wikiGo ⟨"Модул", "lua", "repo", [], fun _ => 0⟩ (fun _ => false) ⟨[], [], false, none⟩
          [⟨"sha1", "msg", "C", "2024-01-01", false, ["B.lua", "D.lua"],
            fun f => if f = "B.lua" then Lookup.found "x\n" else Lookup.notFound⟩]
      ∧ (phab2wikiGo ⟨"Модул", "lua", "repo", [], fun _ => 0⟩ (fun _ => true) ⟨[], [], false, none⟩
          [⟨"sha1", "msg", "C", "2024-01-01", false, ["B.lua", "D.lua"],
            fun f => if f = "B.lua" then Lookup.found "x\n" else Lookup.notFound⟩]).map
            (fun r => (r.1.actions, r.1.blobVar, r.2))
        = (phab2wikiGo ⟨"Модул", "lua", "repo", [], fun _ => 0⟩ (fun _ => false) ⟨[], [], false, none⟩
          [⟨"sha1", "msg", "C", "2024-01-01", false, ["B.lua", "D.lua"],
            fun f => if f = "B.lua" then Lookup.found "x\n" else Lookup.notFound⟩]).map
            (fun r => (r.1.actions, r.1.blobVar, r.2))
      ∧ (∃ out, git2wikiGo ⟨"Модул", "lua", "repo", [], fun _ => 0⟩ (fun _ => true) ⟨[], [], false, none⟩
          [⟨"sha1", "msg", "C", "2024-01-01", false, ["B.lua", "D.lua"],
            fun f => if f = "B.lua" then Lookup.found "x\n" else Lookup.notFound⟩]
          = Except.ok (out, []))
      ∧ (∃ out, phab2wikiGo ⟨"Модул", "lua", "repo", [], fun _ => 0⟩ (fun _ => true) ⟨[], [], false, none⟩
          [⟨"sha1", "msg", "C", "2024-01-01", false, ["B.lua", "D.lua"],
            fun f => if f = "B.lua" then Lookup.found "x\n" else Lookup.notFound⟩]
          = Except.ok (out, []))) :=
  ⟨by decide,
   c7_failures_contained ⟨"Модул", "lua", "repo", [], fun _ => 0⟩ (fun _ => true) (fun _ => false)
     ⟨[], [], false, none⟩
     [⟨"sha1", "msg", "C", "2024-01-01", false, ["B.lua", "D.lua"],
       fun f => if f = "B.lua" then Lookup.found "x\n" else Lookup.notFound⟩]
     (by decide)⟩

theorem lookupFile_setFile (fs : List (String × String)) (f c : String) :
    lookupFile (setFile fs f c) f = some c := by
  simp [lookupFile, setFile, List.find?]

/-- C10: content is newline-normalized at the sync boundary in both engines
and both directions — an applied edit/resync writes the revision text followed
by one `\n` to the working-tree file, and a repository-to-wiki edit saves the
blob content with all trailing newlines stripped as the page text. -/
theorem c10_newline_normalization :
    (∀ um bot forceExt st (rev : PendingRev), rev.user ≠ bot →
      (rev.kind = "edit" ∨ (rev.kind = "resync"
        ∧ ¬ (lookupFile st.files (titleToPath forceExt rev.title)).map rstripNLs = some rev.text)) →
      lookupFile (processRev um bot forceExt st rev).files (titleToPath forceExt rev.title)
        = some (rev.text ++ "\n"))
    ∧ (∀ bot forceExt st (rev : PendingRev), rev.user ≠ bot →
      (rev.kind = "edit" ∨ (rev.kind = "resync"
        ∧ ¬ (lookupFile st.files (titleToPath forceExt rev.title)).map rstripNLs = some rev.text)) →
      lookupFile (processRevPhab bot forceExt st rev).files (titleToPath forceExt rev.title)
        = some (rev.text ++ "\n"))
    ∧ (∀ env apiOk c st f s, f ∉ env.synced → c.contentAt f = Lookup.found s →
      processFileG env apiOk c st f = Except.ok
        { st with
          blobVar := some s
          actions := st.actions ++ [WikiAction.save (pathToPageName env.nsName env.forceExt f)
            (rstripNLs s)
            (createSummary (stripWsAngle c.committerName) env.repoName c.hexsha c.message)] })
    ∧ (∀ env apiOk c st f s, f ∉ env.synced → c.contentAt f = Lookup.found s →
      (processFileP env apiOk c st f).map (fun r => r.actions)
        = Except.ok (st.actions ++ [WikiAction.save (pathToPageName env.nsName env.forceExt f)
            (rstripNLs s)
            (phabSummary (stripWsAngle c.committerName) c.committedDatetime c.message)])) := by
  refine ⟨?_, ?_, ?_, ?_⟩
  · intro um bot forceExt st rev hu hk
    rcases hk with hk | ⟨hk, hskip⟩
    · simp [processRev, hu, hk, lookupFile_setFile]
    · simp [processRev, hu, hk, hskip, lookupFile_setFile]
  · intro bot forceExt st rev hu hk
    rcases hk with hk | ⟨hk, hskip⟩
    · simp [processRevPhab, hu, hk, lookupFile_setFile]
    · simp [processRevPhab, hu, hk, hskip, lookupFile_setFile]
  · intro env apiOk c st f s hs hc
    simp [processFileG, hs, hc]
  · intro env apiOk c st f s hs hc
    simp [processFileP, hs, hc, Except.map]

/-- Witness for C10 at concrete edits in both directions and both engines. -/
theorem c10_newline_normalization_witness :
    lookupFile (processRev [] "SyncBot" "lua" ⟨[], [], []⟩
        ⟨"A", "U", "c", "x", 3, "edit"⟩).files (titleToPath "lua" "A") = some ("x" ++ "\n")
    ∧ lookupFile (processRevPhab "SyncBot" "lua" ⟨[], [], []⟩
        ⟨"A", "U", "c", "x", 3, "edit"⟩).files (titleToPath "lua" "A") = some ("x" ++ "\n")
    ∧ processFileG ⟨"Модул", "lua", "repo", [], fun _ => 0⟩ (fun _ => true)
        ⟨"sha1", "msg", "C", "2024-01-01", false, ["B.lua"], fun _ => Lookup.found "x\n\n"⟩
        ⟨[], [], false, none⟩ "B.lua"
      = Except.ok
        { (⟨[], [], false, none⟩ : BOut) with
          blobVar := some "x\n\n"
          actions := [] ++ [WikiAction.save (pathToPageName "Модул" "lua" "B.lua")
            (rstripNLs "x\n\n") (createSummary (stripWsAngle "C") "repo" "sha1" "msg")] }
    ∧ (processFileP ⟨"Модул", "lua", "repo", [], fun _ => 0⟩ (fun _ => true)
        ⟨"sha1", "msg", "C", "2024-01-01", false, ["B.lua"], fun _ => Lookup.found "x\n\n"⟩
        ⟨[], [], false, none⟩ "B.lua").map (fun r => r.actions)
      = Except.ok ([] ++ [WikiAction.save (pathToPageName "Модул" "lua" "B.lua")
          (rstripNLs "x\n\n") (phabSummary (stripWsAngle "C") "2024-01-01" "msg")]) :=
  ⟨c10_newline_normalization.1 [] "SyncBot" "lua" ⟨[], [], []⟩
      ⟨"A", "U", "c", "x", 3, "edit"⟩ (by decide) (Or.inl rfl),
   c10_newline_normalization.2.1 "SyncBot" "lua" ⟨[], [], []⟩
      ⟨"A", "U", "c", "x", 3, "edit"⟩ (by decide) (Or.inl rfl),
   c10_newline_normalization.2.2.1 ⟨"Модул", "lua", "repo", [], fun _ => 0⟩ (fun _ => true)
      ⟨"sha1", "msg", "C", "2024-01-01", false, ["B.lua"], fun _ => Lookup.found "x\n\n"⟩
      ⟨[], [], false, none⟩ "B.lua" "x\n\n" (by decide) rfl,
   c10_newline_normalization.2.2.2 ⟨"Модул", "lua", "repo", [], fun _ => 0⟩ (fun _ => true)
      ⟨"sha1", "msg", "C", "2024-01-01", false, ["B.lua"], fun _ => Lookup.found "x\n\n"⟩
      ⟨[], [], false, none⟩ "B.lua" "x\n\n" (by decide) rfl⟩

end GitSyncSpec
